import Mathlib

/-!
Shallow embedding of `src/request.go` (package `api` of PJSoftware/goapi):
the request data model, builder operations, query/header materialization
(via models of Go's `net/url.Values` and `net/http.Header`), and the
executor (`GET`, `POST`, `callAPIWithTimeout`, `callAPI`).

Go `error` interface values are modelled as `Option GoErr`; `none` is the
nil interface.  A non-nil pointer to a struct wrapping a nil error (such as
`&PackageError{nil}`) is `some GoErr.packageErrorNil` — a non-`none`
value, exactly as a non-nil `*PackageError` makes the `error` interface
non-nil in Go.

Network nondeterminism (what the transport returns on each attempt, and
whether the deadline timer fires before the concurrent call finishes) is
made an explicit parameter: an `AttemptEnv` per attempt.
-/

namespace GoAPI

/-- Data-type tag of `valueData` (source: `valueDataType`, `vdtString`,
`vdtInt`, `vdtBool`). -/
inductive valueDataType where
  | vdtString
  | vdtInt
  | vdtBool
  deriving DecidableEq, Repr

/-- Source `valueData`: a tagged record; only the field named by `is` is
meaningful. -/
structure valueData where
  is : valueDataType
  s : String := ""
  i : Int := 0
  b : Bool := false
  deriving DecidableEq, Repr

/-- Source `(valueData).string()`: `strconv.Itoa` for ints (Lean `toString`
on `Int` produces the same decimal form) and `strconv.FormatBool` for
bools. -/
def valueData.string (v : valueData) : String :=
  match v.is with
  | .vdtString => v.s
  | .vdtInt => toString v.i
  | .vdtBool => if v.b then "true" else "false"

/-- Source `keyValuePair` (also `reqQuery`, `reqHeader`, `reqBody`, which
are type aliases of it). -/
structure keyValuePair where
  key : String
  value : valueData
  deriving DecidableEq, Repr

/-- Modelled from the spec: `Options` is declared outside `src/`; §6 gives
its contents as "timeout in milliseconds, retry count".  `timeout` is a
signed integer (the source compares it with `<= 0`); `retries` is a Go
`uint` (the source loops `retry := uint(1); retry <= r.Options.retries`). -/
structure Options where
  timeout : Int
  retries : Nat
  deriving DecidableEq, Repr

/-- Modelled from the spec: the endpoint resolver (§6) supplies `URL()`
and, through `e.parent.Options`, the default `Options` value that seeds a
new draft. -/
structure Endpoint where
  url : String
  parentOptions : Options
  deriving DecidableEq, Repr

/-- Source `Request`: the draft accumulator.  `Options` here holds the
value of the draft's own copied options (the pointer-copy aspect of
`NewRequest` is studied separately in the heap model below). -/
structure Request where
  endPoint : Endpoint
  queries : List keyValuePair := []
  headers : List keyValuePair := []
  bodyKV : List keyValuePair := []
  bodyTXT : String := ""
  hasBody : Bool := false
  Options : Options
  deriving DecidableEq, Repr

/-- Source `(*Endpoint).NewRequest()`: a fresh draft whose `Options` is a
copy (`opt := *e.parent.Options`) of the endpoint's current defaults. -/
def NewRequest (e : Endpoint) : Request :=
  { endPoint := e, Options := e.parentOptions }

/-- Source `(*Request).AddQuery`. -/
def AddQuery (r : Request) (key value : String) : Request :=
  { r with queries := r.queries ++ [⟨key, { is := .vdtString, s := value }⟩] }

/-- Source `(*Request).AddQueryBool`. -/
def AddQueryBool (r : Request) (key : String) (value : Bool) : Request :=
  { r with queries := r.queries ++ [⟨key, { is := .vdtBool, b := value }⟩] }

/-- Source `(*Request).AddQueryInt`. -/
def AddQueryInt (r : Request) (key : String) (value : Int) : Request :=
  { r with queries := r.queries ++ [⟨key, { is := .vdtInt, i := value }⟩] }

/-- Source `(*Request).AddHeader`. -/
def AddHeader (r : Request) (key value : String) : Request :=
  { r with headers := r.headers ++ [⟨key, { is := .vdtString, s := value }⟩] }

/-- Source `(*Request).FormEncoded`: delegates to `AddHeader`. -/
def FormEncoded (r : Request) : Request :=
  AddHeader r "Content-Type" "application/x-www-form-urlencoded"

/-- Source `(*Request).AddBodyKV`. -/
def AddBodyKV (r : Request) (key value : String) : Request :=
  { r with bodyKV := r.bodyKV ++ [⟨key, { is := .vdtString, s := value }⟩],
           hasBody := true }

/-- Source `(*Request).SetBodyJSON`.  `json.Marshal` is external
(`encoding/json`), so its outcome is a parameter: `none` models a marshal
error, in which case the source returns `nil` before mutating `r`, leaving
the draft unchanged; `some s` models success with JSON text `s`. -/
def SetBodyJSON (r : Request) (marshalled : Option String) : Request :=
  match marshalled with
  | none => r
  | some s => { r with bodyTXT := s, hasBody := true }

/-! Responses and errors.  `Response`, `newResponse`, `newQueryError`,
`PackageError` and `ErrTimeout` are package members declared outside
`src/`. -/

/-- Modelled from the spec: `Response` (declared outside `src/`) wraps
"status + body"; `newResponse(res.StatusCode, string(body))` stores the
status code and the body text. -/
structure Response where
  Status : Nat
  Body : String
  deriving DecidableEq, Repr

/-- Modelled from the spec: `newResponse` wraps `(statusCode, bodyText)`
into a `Response` value (§4.5). -/
def newResponse (status : Nat) (body : String) : Response :=
  { Status := status, Body := body }

/-- Go error values reachable in this package, as a closed datatype.

* `packageErrorNil` / `packageErrorOf e` — `&PackageError{inner}`
  (`PackageError` is declared outside `src/`; the spec calls it the
  generic transport-error classification).  The wrapped inner `error`
  interface value may be nil; to keep the datatype non-nested the nil and
  non-nil cases are two constructors, assembled by `mkPackageError`.
* `timeout` — modelled from the spec: the sentinel `ErrTimeout`, the
  classified `TimeoutError` of §7.
* `queryError resp req` — modelled from the spec: `newQueryError(rv, r)`,
  the `APIError` of §4.5/§7 "carrying the status code, body text, and a
  reference to the originating request".
* `wrapped msg inner` — a `fmt.Errorf("...: %w", err)` wrapper built in
  `callAPI` (there `inner` is always a non-nil stdlib error).
* `transport msg` — an error surfaced by the Go standard library
  (`http.NewRequest`, `(*http.Client).Do`, `io.ReadAll`), identified by
  its message. -/
inductive GoErr where
  | packageErrorNil : GoErr
  | packageErrorOf : GoErr → GoErr
  | timeout : GoErr
  | queryError : Response → Request → GoErr
  | wrapped : String → GoErr → GoErr
  | transport : String → GoErr
  deriving DecidableEq, Repr

/-- The Go expression `&PackageError{e}` for an inner `error` interface
value `e` (`none` = nil).  The result is always a non-nil error value
(`some ...`): a non-nil `*PackageError` pointer makes the `error`
interface non-nil even when the struct wraps a nil error. -/
def mkPackageError (e : Option GoErr) : GoErr :=
  match e with
  | none => .packageErrorNil
  | some x => .packageErrorOf x

/-- Modelled from the spec: `newQueryError(rv, r)` builds the `APIError`
carrying the response (status code and body text) and the originating
request. -/
def newQueryError (rv : Response) (r : Request) : GoErr :=
  .queryError rv r

/-- A Go `(*Response, error)` return value. -/
abbrev Outcome := Option Response × Option GoErr

/-- What the Go standard library does for one attempt inside `callAPI`:
either one of its three fallible steps fails (with some message), or the
round trip completes with a status code and body. -/
inductive TransportCase where
  | genReqError : String → TransportCase
  | doError : String → TransportCase
  | readError : String → TransportCase
  | completed : Nat → String → TransportCase
  deriving DecidableEq, Repr

/-- Environment of a single attempt: what the transport does, and — when a
positive timeout races the call against a deadline timer — whether the
timer fires before the concurrent call delivers its result. -/
structure AttemptEnv where
  timerFirst : Bool
  transport : TransportCase
  deriving DecidableEq, Repr

/-- Source `(*Request).callAPI`: build the HTTP request, perform the round
trip, read the body, then classify: a non-200 status returns the Response
together with `newQueryError(rv, r)`; a 200 status returns the Response
with a nil error. -/
def callAPI (r : Request) (method : String) (tc : TransportCase) : Outcome :=
  match tc with
  | .genReqError msg =>
      (none, some (mkPackageError (some (.wrapped
        ("error in " ++ method ++ "(): creating *http.Request") (.transport msg)))))
  | .doError msg =>
      (none, some (mkPackageError (some (.wrapped
        ("error in " ++ method ++ "(): communicating with api") (.transport msg)))))
  | .readError msg =>
      (none, some (mkPackageError (some (.wrapped
        ("error in " ++ method ++ "(): reading body of response") (.transport msg)))))
  | .completed status body =>
      let rv := newResponse status body
      if rv.Status ≠ 200 then (some rv, some (newQueryError rv r))
      else (some rv, none)

/-- Source `(*Request).callAPIWithTimeout`:
* `timeout <= 0`: call `callAPI` synchronously and return its outcome;
* otherwise race the call against the deadline.  If the timer fires first,
  return `(nil, ErrTimeout)`.  If the call finishes first, return
  `(resp.r, &PackageError{resp.e})` — note the unconditional wrapping,
  which is non-nil even when `resp.e` is nil. -/
def callAPIWithTimeout (r : Request) (method : String) (env : AttemptEnv) : Outcome :=
  if r.Options.timeout ≤ 0 then
    callAPI r method env.transport
  else if env.timerFirst then
    (none, some .timeout)
  else
    let resp := callAPI r method env.transport
    (resp.1, some (mkPackageError resp.2))

/-- The retry loop of source `(*Request).GET` (`for retry := uint(1);
retry <= r.Options.retries; retry++`), unrolled on the remaining budget
`fuel`; `retry` is the index of the next attempt.  Returns `some o` when a
loop attempt got `err == nil` and the function returned early with that
attempt's outcome `o`, `none` when the loop exhausted; the second
component counts the attempts the loop performed. -/
def GETretry (r : Request) (envs : Nat → AttemptEnv) (retry fuel : Nat) :
    Option Outcome × Nat :=
  match fuel with
  | 0 => (none, 0)
  | fuel' + 1 =>
      let o := callAPIWithTimeout r "GET" (envs retry)
      match o.2 with
      | none => (some o, 1)
      | some _ =>
        let rest := GETretry r envs (retry + 1) fuel'
        (rest.1, rest.2 + 1)

/-- Source `(*Request).GET`.  The first attempt's `res, err` are the
function-scoped variables; the loop's `res, err := ...` shadows them, so
after the loop exhausts the final `return res, err` yields the FIRST
attempt's outcome.  The second component is the total number of attempts
(calls of `callAPIWithTimeout`) performed. -/
def GET (r : Request) (envs : Nat → AttemptEnv) : Outcome × Nat :=
  let first := callAPIWithTimeout r "GET" (envs 0)
  match first.2 with
  | none => (first, 1)
  | some _ =>
  if 0 < r.Options.retries then
    let loop := GETretry r envs 1 r.Options.retries
    match loop.1 with
    | some o => (o, loop.2 + 1)
    | none => (first, loop.2 + 1)
  else (first, 1)

/-- Source `(*Request).POST`: a single call of `callAPIWithTimeout`; the
attempt count is 1. -/
def POST (r : Request) (envs : Nat → AttemptEnv) : Outcome × Nat :=
  (callAPIWithTimeout r "POST" (envs 0), 1)

/-! Model of Go `net/url.Values` as used by `RawQueryURL`,
`populateHTTPRequest` and `genHTTPReq`: a multimap `map[string][]string`.
A Go map is unordered, so it is modelled as an association list with
distinct keys whose list order carries no meaning; `Values.encode` sorts
the keys (Go: "sorted by key"), so the encoded output is independent of
that order for the inputs built here.  Strings are escaped byte-wise on
their UTF-8 encoding, as `url.QueryEscape` does. -/

/-- The UTF-8 bytes of one character (Go strings are byte strings; the
requests here carry text, encoded per code point). -/
def utf8Encode (c : Char) : List Nat :=
  let n := c.toNat
  if n < 128 then [n]
  else if n < 2048 then [192 + n / 64, 128 + n % 64]
  else if n < 65536 then [224 + n / 4096, 128 + (n / 64) % 64, 128 + n % 64]
  else [240 + n / 262144, 128 + (n / 4096) % 64, 128 + (n / 64) % 64, 128 + n % 64]

/-- Upper-case hexadecimal digit, as Go's `"0123456789ABCDEF"` table. -/
def upperHexDigit (n : Nat) : Char :=
  if n < 10 then Char.ofNat (48 + n) else Char.ofNat (55 + n)

/-- Escape one byte as `url.QueryEscape` does (mode
`encodeQueryComponent`): alphanumerics and `-._~` unchanged, space to
`+`, everything else to `%XX`. -/
def escapeByte (b : Nat) : List Char :=
  if (65 ≤ b ∧ b ≤ 90) ∨ (97 ≤ b ∧ b ≤ 122) ∨ (48 ≤ b ∧ b ≤ 57)
      ∨ b = 45 ∨ b = 95 ∨ b = 46 ∨ b = 126 then
    [Char.ofNat b]
  else if b = 32 then
    ['+']
  else
    ['%', upperHexDigit (b / 16), upperHexDigit (b % 16)]

/-- Go `url.QueryEscape`. -/
def queryEscape (s : String) : String :=
  String.mk ((s.data.flatMap utf8Encode).flatMap escapeByte)

/-- Go `url.Values`: a `map[string][]string`, modelled as an association
list with distinct keys. -/
abbrev Values := List (String × List String)

/-- Go `(url.Values).Add(key, value)`: append `value` to the slice stored
under `key` (creating the entry when absent). -/
def Values.add (vs : Values) (k v : String) : Values :=
  match vs with
  | [] => [(k, [v])]
  | (k₀, ws) :: rest =>
      if k₀ = k then (k₀, ws ++ [v]) :: rest else (k₀, ws) :: Values.add rest k v

/-- Key-order on entries, the order `(url.Values).Encode` sorts by. -/
def keyLE (a b : String × List String) : Prop := a.1 ≤ b.1

instance : DecidableRel keyLE := fun a b =>
  decidable_of_iff (a.1.toList ≤ b.1.toList) String.le_iff_toList_le.symm

instance : IsTotal (String × List String) keyLE := ⟨fun a b => le_total a.1 b.1⟩

instance : IsTrans (String × List String) keyLE := ⟨fun _ _ _ h₁ h₂ => le_trans h₁ h₂⟩

/-- All `(key, value)` pairs a `Values` map holds, each key paired with
each of its values in slice order. -/
def flattenValues (vs : Values) : List (String × String) :=
  vs.flatMap (fun kv => kv.2.map (fun v => (kv.1, v)))

/-- The `(key, value)` pairs `(url.Values).Encode` walks, in its emission
order: entries sorted by key, then each key's values in slice order.  (The
sort is stable/irrelevant here because a `Values` map has one entry per
key.) -/
def Values.encodePairs (vs : Values) : List (String × String) :=
  flattenValues (List.insertionSort keyLE vs)

/-- Go `(url.Values).Encode()`: `escape(k) + "=" + escape(v)` for each
emitted pair, joined by `&`. -/
def Values.encode (vs : Values) : String :=
  String.intercalate "&"
    ((Values.encodePairs vs).map (fun kv => queryEscape kv.1 ++ "=" ++ queryEscape kv.2))

/-- The loop shared by `RawQueryURL` and `populateHTTPRequest`:
`for _, qry := range r.queries { httpQuery.Add(qry.key, qry.value.string()) }`,
starting from the query map parsed off the endpoint URL (empty for a base
URL without a query component, the case modelled here). -/
def applyQueries (qs : List keyValuePair) : Values :=
  qs.foldl (fun acc q => Values.add acc q.key q.value.string) []

/-- The raw query string both execution (`populateHTTPRequest`) and
`RawQueryURL` assign: `httpQuery.Encode()` over the accumulated queries. -/
def rawQuery (qs : List keyValuePair) : String :=
  Values.encode (applyQueries qs)

/-- The emitted `(key, value)` pairs of the materialized query string (in
unescaped form), in emission order. -/
def materializedQueryPairs (qs : List keyValuePair) : List (String × String) :=
  Values.encodePairs (applyQueries qs)

/-- Source `(*Request).RawQueryURL` for a well-formed, query-free endpoint
base URL: `httpReq.URL.String()` re-renders the base and appends
`? + RawQuery` when the latter is non-empty. -/
def RawQueryURL (r : Request) : String :=
  if rawQuery r.queries = "" then r.endPoint.url
  else r.endPoint.url ++ "?" ++ rawQuery r.queries

/-- The query string the spec's C3 sentence describes, word for word:
"pairs joined by `&`, ordering = insertion order of additions, not
sorted" (keys and values percent-encoded).  This definition follows the
SPEC, not the source; it exists to be compared with `rawQuery`. -/
def rawQueryInsertionOrderSpec (qs : List keyValuePair) : String :=
  String.intercalate "&"
    (qs.map (fun q => queryEscape q.key ++ "=" ++ queryEscape q.value.string))

/-- The raw `(key, value)` pairs a list of query additions denotes, in
insertion order, values serialized. -/
def rawPairs (qs : List keyValuePair) : List (String × String) :=
  qs.map (fun q => (q.key, q.value.string))

/-! Model of Go `net/http.Header` (a `map[string][]string` keyed by
canonical MIME header keys) as used by `populateHTTPRequest`:
`httpReq.Header.Set(k, v)` stores `[]string{v}` under
`textproto.CanonicalMIMEHeaderKey(k)`, replacing any previous value. -/

/-- Go `textproto` valid header-field byte: a token character —
letters, digits, or one of `!#$%&'*+-.^_|~` and backquote. -/
def validHeaderFieldChar (c : Char) : Bool :=
  let n := c.toNat
  (65 ≤ n && n ≤ 90) || (97 ≤ n && n ≤ 122) || (48 ≤ n && n ≤ 57) ||
  n = 33 || n = 35 || n = 36 || n = 37 || n = 38 || n = 39 || n = 42 ||
  n = 43 || n = 45 || n = 46 || n = 94 || n = 95 || n = 96 || n = 124 || n = 126

/-- ASCII case mapping applied at one position of a canonical key: upper
at the start of a word (start of string or right after `-`), lower
elsewhere. -/
def canonChar (upper : Bool) (c : Char) : Char :=
  let n := c.toNat
  if upper && 97 ≤ n && n ≤ 122 then Char.ofNat (n - 32)
  else if !upper && 65 ≤ n && n ≤ 90 then Char.ofNat (n + 32)
  else c

/-- The fold inside `textproto.canonicalMIMEHeaderKey`: rewrite each
character, tracking whether the next one starts a word. -/
def canonMap (upper : Bool) : List Char → List Char
  | [] => []
  | c :: rest =>
      let c₀ := canonChar upper c
      c₀ :: canonMap (c₀ = '-') rest

/-- Go `textproto.CanonicalMIMEHeaderKey`: keys containing an invalid
byte are returned unchanged; otherwise words are capitalized (`-`
separated). -/
def canonicalMIMEHeaderKey (s : String) : String :=
  if s.data.all validHeaderFieldChar then String.mk (canonMap true s.data) else s

/-- Go `net/http.Header`, modelled like `Values`: an association list
with distinct (canonical) keys. -/
abbrev Header := List (String × List String)

/-- Replace the entry under `k` by `v`, appending a new entry when `k` is
absent (the model of a Go map assignment `h[k] = v`). -/
def setAssoc (h : Header) (k : String) (v : List String) : Header :=
  match h with
  | [] => [(k, v)]
  | (k₀, w) :: rest =>
      if k₀ = k then (k₀, v) :: rest else (k₀, w) :: setAssoc rest k v

/-- Go `(http.Header).Set(k, v)`:
`h[CanonicalMIMEHeaderKey(k)] = []string{v}`. -/
def Header.set (h : Header) (k v : String) : Header :=
  setAssoc h (canonicalMIMEHeaderKey k) [v]

/-- Lookup under a canonical key (the model of reading `h[ck]`). -/
def getAssoc (h : Header) (ck : String) : Option (List String) :=
  match h with
  | [] => none
  | (k₀, w) :: rest => if k₀ = ck then some w else getAssoc rest ck

/-- The header loop of source `populateHTTPRequest`:
`for _, hdr := range r.headers { httpReq.Header.Set(hdr.key, hdr.value.string()) }`,
starting from the empty header map `http.NewRequest` creates. -/
def applyHeaders (hs : List keyValuePair) (h₀ : Header) : Header :=
  hs.foldl (fun h p => Header.set h p.key p.value.string) h₀

/-! Body generation (source `genHTTPReq`). -/

/-- The form-encoding branch of `genHTTPReq`: `url.Values` built with
`form.Add(body.key, body.value.string())`, then `form.Encode()`. -/
def formEncode (kvs : List keyValuePair) : String :=
  Values.encode (kvs.foldl (fun acc p => Values.add acc p.key p.value.string) [])

/-- The body reader source `genHTTPReq` hands to `http.NewRequest`:
* `none` — the `else` branch: no body (`nil` literal passed directly);
* `some none` — `hasBody` is true but both `bodyTXT` and `bodyKV` are
  empty, so the declared `var bodyString *strings.Reader` stays nil and a
  nil `*strings.Reader` is passed as the reader;
* `some (some s)` — a reader over the string `s`. -/
def genHTTPReqBody (r : Request) : Option (Option String) :=
  if r.hasBody then
    if 0 < r.bodyTXT.length then some (some r.bodyTXT)
    else if 0 < r.bodyKV.length then some (some (formEncode r.bodyKV))
    else some none
  else none

/-! Public builder operations as a datatype, to quantify over every
sequence of mutations a caller can apply to a draft. -/

/-- One public builder call on a draft (the mutating operations of the
fluent surface).  `setBodyJSON` carries the outcome of the external
`json.Marshal` call. -/
inductive BuilderOp where
  | addQuery : String → String → BuilderOp
  | addQueryBool : String → Bool → BuilderOp
  | addQueryInt : String → Int → BuilderOp
  | addHeader : String → String → BuilderOp
  | formEncodedOp : BuilderOp
  | addBodyKV : String → String → BuilderOp
  | setBodyJSON : Option String → BuilderOp
  deriving DecidableEq, Repr

/-- Apply one builder operation to a draft. -/
def applyOp (r : Request) (op : BuilderOp) : Request :=
  match op with
  | .addQuery k v => AddQuery r k v
  | .addQueryBool k v => AddQueryBool r k v
  | .addQueryInt k v => AddQueryInt r k v
  | .addHeader k v => AddHeader r k v
  | .formEncodedOp => FormEncoded r
  | .addBodyKV k v => AddBodyKV r k v
  | .setBodyJSON m => SetBodyJSON r m

/-- Apply a sequence of builder operations, left to right. -/
def applyOps (r : Request) (ops : List BuilderOp) : Request :=
  ops.foldl applyOp r

/-- Well-formedness of one operation's external input: a successful
`json.Marshal` yields valid JSON text, which is never empty (an empty
`MarshalJSON` result makes `json.Marshal` fail). -/
def opOK (op : BuilderOp) : Prop :=
  match op with
  | .setBodyJSON (some s) => s ≠ ""
  | _ => True

/-- The body invariant of claim C10: `hasBody` is set exactly when some
body content is present. -/
def bodyInvariant (r : Request) : Prop :=
  r.hasBody = true ↔ (r.bodyTXT ≠ "" ∨ r.bodyKV ≠ [])

/-! Heap model for the options snapshot of `NewRequest` (claim C8).  Go
pointers to `Options` are modelled as indices into a list of `Options`
cells; `e.parent.Options` is such a pointer, and `NewRequest` does
`opt := *e.parent.Options` (a value copy) and stores `&opt` (a fresh
cell). -/

/-- Read a cell of the options heap. -/
def heapRead (h : List Options) (loc : Nat) : Options :=
  h.getD loc { timeout := 0, retries := 0 }

/-- Overwrite a cell of the options heap (a mutation of the pointed-to
`Options`, e.g. by the endpoint's owner). -/
def heapWrite (h : List Options) (loc : Nat) (v : Options) : List Options :=
  h.set loc v

/-- Source `NewRequest` at the pointer level: read the endpoint's shared
`Options` cell, allocate a fresh cell holding the copy, and hand the
draft the fresh location.  Returns the draft's options location and the
extended heap. -/
def NewRequestAlloc (optionsLoc : Nat) (h : List Options) : Nat × List Options :=
  (h.length, h ++ [heapRead h optionsLoc])

/-- Go map lookup `v[k]` on a `Values` map: the slice stored under `k`,
nil (`[]`) when absent. -/
def valuesGet (vs : Values) (k : String) : List String :=
  match vs with
  | [] => []
  | (k₀, ws) :: rest => if k₀ = k then ws else valuesGet rest k

/-- The keys of a `Values` map. -/
def keysOf (vs : Values) : List String := vs.map Prod.fst

/-- The values carried by key `k` in a pair list, in list order. -/
def selectK (k : String) (l : List (String × String)) : List String :=
  l.filterMap (fun p => if p.1 = k then some p.2 else none)

/-- The last element of `hs` whose canonical header key is `ck` (searched
from the right). -/
def lastHeaderFor (hs : List keyValuePair) (ck : String) : Option keyValuePair :=
  hs.reverse.find? (fun p => canonicalMIMEHeaderKey p.key == ck)

/-! Concrete fixtures used by witnesses and counterexamples. -/

/-- Fixture endpoint. -/
def epA : Endpoint :=
  { url := "https://api.example.com/v1/items",
    parentOptions := { timeout := 0, retries := 0 } }

/-- Fixture attempt environment: the round trip completes (status 200,
body "ok") and, under a positive timeout, before the deadline fires. -/
def envOK : AttemptEnv := ⟨false, .completed 200 "ok"⟩

/-- Draft with a 100 ms timeout and no retries. -/
def reqTimeout100 : Request :=
  { NewRequest epA with Options := { timeout := 100, retries := 0 } }

/-- Draft with a 100 ms timeout and one retry. -/
def reqT100R1 : Request :=
  { NewRequest epA with Options := { timeout := 100, retries := 1 } }

/-- Draft with no timeout and one retry. -/
def reqR1 : Request :=
  { NewRequest epA with Options := { timeout := 0, retries := 1 } }

/-- Attempt environments: the first attempt's deadline timer fires first;
every later attempt completes with status 200 before its deadline. -/
def envsTimeoutThenOK : Nat → AttemptEnv :=
  fun n => if n = 0 then ⟨true, .completed 200 "ok"⟩ else envOK

/-- Attempt environments: attempt 0 fails in `(*http.Client).Do` with
message "A", every later attempt with message "B". -/
def envsFailAFailB : Nat → AttemptEnv :=
  fun n => if n = 0 then ⟨false, .doError "A"⟩ else ⟨false, .doError "B"⟩

/-- Draft adding query key "b" (value "x") and then key "a" (value "1"):
insertion order puts "b" first. -/
def reqBA : Request := AddQuery (AddQuery (NewRequest epA) "b" "x") "a" "1"

end GoAPI

namespace GoAPI

/-! Helper lemmas about the retry loop. -/

/-- A run of the retry loop with positive fuel performs at least one
attempt. -/
theorem GETretry_count_pos (r : Request) (envs : Nat → AttemptEnv) (retry fuel : Nat)
    (h : 0 < fuel) : 1 ≤ (GETretry r envs retry fuel).2 := by
  cases fuel with
  | zero => exact absurd h (by simp)
  | succ f =>
    simp only [GETretry]
    cases hc : (callAPIWithTimeout r "GET" (envs retry)).2 with
    | none => simp
    | some e => simp

/-- When every attempt the loop can reach fails, the loop exhausts its
fuel: no early return, `fuel` attempts performed. -/
theorem GETretry_allfail (r : Request) (envs : Nat → AttemptEnv) :
    ∀ fuel retry, (∀ j, retry ≤ j → j < retry + fuel →
        (callAPIWithTimeout r "GET" (envs j)).2 ≠ none) →
    GETretry r envs retry fuel = (none, fuel) := by
  intro fuel
  induction fuel with
  | zero => intro retry _; simp [GETretry]
  | succ f ih =>
    intro retry h
    have h0 : (callAPIWithTimeout r "GET" (envs retry)).2 ≠ none :=
      h retry (le_refl _) (by omega)
    simp only [GETretry]
    cases hc : (callAPIWithTimeout r "GET" (envs retry)).2 with
    | none => exact absurd hc h0
    | some e =>
      have hrest := ih (retry + 1) (fun j hj1 hj2 => h j (by omega) (by omega))
      simp [hrest]

/-- Shape of `GET` when the first attempt fails and retries are enabled:
the loop runs; on loop exhaustion the FIRST attempt's outcome is returned
(the loop-local `res, err :=` shadow the outer variables). -/
theorem GET_first_fail (r : Request) (envs : Nat → AttemptEnv) (e : GoErr)
    (ht : (callAPIWithTimeout r "GET" (envs 0)).2 = some e)
    (hr : 0 < r.Options.retries) :
    GET r envs =
      match (GETretry r envs 1 r.Options.retries).1 with
      | some o => (o, (GETretry r envs 1 r.Options.retries).2 + 1)
      | none => (callAPIWithTimeout r "GET" (envs 0),
                 (GETretry r envs 1 r.Options.retries).2 + 1) := by
  simp only [GET, ht, hr, if_true]

/-! Claim theorems. -/

/-- C1 (code bug, failing input): draft with `timeout = 100 ms`, no
retries; the round trip completes before the deadline with status 200 and
body "ok".  The inner call (`callAPI`) succeeds — Response and nil error —
yet `callAPIWithTimeout` returns the Response with a NON-nil error,
`&PackageError{nil}` (`resp.e` is wrapped unconditionally at the
`case resp := <- ch` return), and `POST`/`GET` surface that non-nil error;
the claim (and the spec) say the error is attached only if the inner call
itself errored. -/
theorem C1_success_wrapped_nonnil_error :
    callAPI reqTimeout100 "POST" (.completed 200 "ok") = (some ⟨200, "ok"⟩, none) ∧
    callAPIWithTimeout reqTimeout100 "POST" envOK =
      (some ⟨200, "ok"⟩, some .packageErrorNil) ∧
    (POST reqTimeout100 (fun _ => envOK)).1.2 ≠ none ∧
    (GET reqTimeout100 (fun _ => envOK)).1.2 ≠ none := by
  refine ⟨by decide, by decide, by decide, by decide⟩

/-- C2 counterexample: draft with `timeout = 100 ms`, `retries = 1`; the
first attempt's deadline fires before the call completes (a
`TimeoutError`), the retry completes normally.  The claim says no further
attempt is made after a timeout (attempt count 1); the code performs a
second attempt (attempt count 2): `GET` retries on any non-nil error,
including `ErrTimeout`. -/
theorem C2_counterexample :
    (callAPIWithTimeout reqT100R1 "GET" (envsTimeoutThenOK 0)).2 = some .timeout ∧
    (GET reqT100R1 envsTimeoutThenOK).2 = 2 ∧
    (GET reqT100R1 envsTimeoutThenOK).2 ≠ 1 := by
  refine ⟨by decide, ?_, ?_⟩ <;> decide

/-- C2 amended: when the first `GET` attempt fails with `TimeoutError` and
`retries > 0`, further attempts ARE made within the same call (at least
two attempts in total); and when every retry attempt also fails, the
first attempt's outcome — the `TimeoutError` — is what the call returns,
after `retries + 1` attempts in total. -/
theorem C2_amended_retry_after_timeout (r : Request) (envs : Nat → AttemptEnv)
    (hr : 0 < r.Options.retries)
    (ht : (callAPIWithTimeout r "GET" (envs 0)).2 = some .timeout) :
    2 ≤ (GET r envs).2 ∧
    ((∀ i, 1 ≤ i → i ≤ r.Options.retries →
        (callAPIWithTimeout r "GET" (envs i)).2 ≠ none) →
      (GET r envs).1 = callAPIWithTimeout r "GET" (envs 0) ∧
      (GET r envs).2 = r.Options.retries + 1) := by
  have hshape := GET_first_fail r envs _ ht hr
  constructor
  · rw [hshape]
    have hpos := GETretry_count_pos r envs 1 r.Options.retries hr
    cases hl : (GETretry r envs 1 r.Options.retries).1 with
    | none => simpa using hpos
    | some o => simpa using hpos
  · intro hall
    have hexh : GETretry r envs 1 r.Options.retries = (none, r.Options.retries) :=
      GETretry_allfail r envs r.Options.retries 1
        (fun j hj1 hj2 => hall j hj1 (by omega))
    rw [hshape, hexh]
    exact ⟨rfl, rfl⟩

/-- C2 amended, witness: the concrete timeout-then-fail scenario.  With
`timeout = 100 ms`, `retries = 1`, attempt 0 timing out and attempt 1
also failing (here: completing after its own deadline), the call performs
2 attempts and returns the first attempt's `TimeoutError`. -/
theorem C2_amended_retry_after_timeout_witness :
    2 ≤ (GET reqT100R1 (fun _ => ⟨true, .completed 200 "ok"⟩)).2 ∧
    (GET reqT100R1 (fun _ => ⟨true, .completed 200 "ok"⟩)).1 =
      callAPIWithTimeout reqT100R1 "GET" ⟨true, .completed 200 "ok"⟩ ∧
    (GET reqT100R1 (fun _ => ⟨true, .completed 200 "ok"⟩)).2 =
      reqT100R1.Options.retries + 1 := by
  have h := C2_amended_retry_after_timeout reqT100R1
    (fun _ => ⟨true, .completed 200 "ok"⟩) (by decide) (by decide)
  have hfail : ∀ i, 1 ≤ i → i ≤ reqT100R1.Options.retries →
      (callAPIWithTimeout reqT100R1 "GET"
        ((fun _ => (⟨true, .completed 200 "ok"⟩ : AttemptEnv)) i)).2 ≠ none := by
    intro i _ _
    show (callAPIWithTimeout reqT100R1 "GET" ⟨true, .completed 200 "ok"⟩).2 ≠ none
    decide
  exact ⟨h.1, (h.2 hfail).1, (h.2 hfail).2⟩

/-- C4 (code bug, failing input): draft with no timeout, `retries = 1`;
attempt 0 fails in `(*http.Client).Do` with message "A", attempt 1 (the
only retry) fails with message "B".  All attempts fail, and the call
returns the FIRST attempt's response and error (message "A"), not the
last attempt's (message "B"): the loop's `res, err := ...` shadows the
function-scoped variables that the final `return res, err` reads. -/
theorem C4_returns_first_failure :
    (GET reqR1 envsFailAFailB).1 = callAPIWithTimeout reqR1 "GET" (envsFailAFailB 0) ∧
    (GET reqR1 envsFailAFailB).1 ≠ callAPIWithTimeout reqR1 "GET" (envsFailAFailB 1) ∧
    (callAPIWithTimeout reqR1 "GET" (envsFailAFailB 1)).2 ≠ none ∧
    (GET reqR1 envsFailAFailB).2 = 2 := by
  refine ⟨by decide, by decide, by decide, by decide⟩

/-- C5: dispatch of `callAPIWithTimeout`.  With `timeout <= 0` the call
runs synchronously and returns the inner `callAPI` outcome unchanged;
with `timeout > 0`, if the deadline timer fires before the concurrent
call delivers, the call returns no Response and the classified
`ErrTimeout`. -/
theorem C5_timeout_dispatch (r : Request) (method : String) (env : AttemptEnv) :
    (r.Options.timeout ≤ 0 →
      callAPIWithTimeout r method env = callAPI r method env.transport) ∧
    (0 < r.Options.timeout → env.timerFirst = true →
      callAPIWithTimeout r method env = (none, some .timeout)) := by
  constructor
  · intro h; simp [callAPIWithTimeout, h]
  · intro h hfire; simp [callAPIWithTimeout, not_le.mpr h, hfire]

/-- C5 witness: a zero-timeout draft returns the inner outcome; a 100 ms
draft whose timer fires first returns `(nil, ErrTimeout)`. -/
theorem C5_timeout_dispatch_witness :
    callAPIWithTimeout (NewRequest epA) "GET" envOK =
      callAPI (NewRequest epA) "GET" envOK.transport ∧
    callAPIWithTimeout reqTimeout100 "GET" ⟨true, .completed 200 "ok"⟩ =
      (none, some .timeout) :=
  ⟨(C5_timeout_dispatch (NewRequest epA) "GET" envOK).1 (by decide),
   (C5_timeout_dispatch reqTimeout100 "GET" ⟨true, .completed 200 "ok"⟩).2
     (by decide) rfl⟩

/-- C6: classification of a completed round trip by `callAPI`.  Status
exactly 200 yields the Response with a nil error; any other status yields
the Response together with the `APIError` (`newQueryError`) carrying that
status, the body text and the originating request. -/
theorem C6_status_classification (r : Request) (method : String)
    (status : Nat) (body : String) :
    (status = 200 →
      callAPI r method (.completed status body) = (some ⟨200, body⟩, none)) ∧
    (status ≠ 200 →
      callAPI r method (.completed status body) =
        (some ⟨status, body⟩, some (.queryError ⟨status, body⟩ r))) := by
  constructor
  · intro h; subst h; simp [callAPI, newResponse, newQueryError]
  · intro h; simp [callAPI, newResponse, newQueryError, h]

/-- C6 witness: status 200 gives a Response and no APIError; status 404
gives the Response and an APIError referencing status 404, the body, and
the original request. -/
theorem C6_status_classification_witness :
    callAPI (NewRequest epA) "GET" (.completed 200 "ok") =
      (some ⟨200, "ok"⟩, none) ∧
    callAPI (NewRequest epA) "GET" (.completed 404 "missing") =
      (some ⟨404, "missing"⟩,
       some (.queryError ⟨404, "missing"⟩ (NewRequest epA))) :=
  ⟨(C6_status_classification (NewRequest epA) "GET" 200 "ok").1 rfl,
   (C6_status_classification (NewRequest epA) "GET" 404 "missing").2 (by decide)⟩

/-- C9: `POST` performs exactly one attempt — one `callAPIWithTimeout`
call — whatever `options.retries` is: its attempt count is 1, its outcome
is attempt 0's outcome, and it never consults any later attempt's
environment. -/
theorem C9_post_single_attempt (r : Request) (envs : Nat → AttemptEnv) :
    (POST r envs).2 = 1 ∧
    (POST r envs).1 = callAPIWithTimeout r "POST" (envs 0) ∧
    ∀ envs₂ : Nat → AttemptEnv, envs₂ 0 = envs 0 → POST r envs₂ = POST r envs := by
  refine ⟨rfl, rfl, ?_⟩
  intro envs₂ h
  simp [POST, h]

/-- C9 witness: a draft with `retries = 1` still POSTs exactly once, and
changing what happens on attempts ≥ 1 cannot change the outcome. -/
theorem C9_post_single_attempt_witness :
    (POST reqR1 (fun _ => envOK)).2 = 1 ∧
    (POST reqR1 (fun _ => envOK)).1 = callAPIWithTimeout reqR1 "POST" envOK ∧
    POST reqR1 (fun n => if n = 0 then envOK else ⟨false, .doError "Z"⟩) =
      POST reqR1 (fun _ => envOK) := by
  have h := C9_post_single_attempt reqR1 (fun _ => envOK)
  exact ⟨h.1, h.2.1,
    h.2.2 (fun n => if n = 0 then envOK else ⟨false, .doError "Z"⟩) rfl⟩

/-! Header materialization (claim C7). -/

/-- Reading an association map after a set: the set key yields the new
value, any other key is untouched. -/
theorem getAssoc_setAssoc (h : Header) (k ck : String) (v : List String) :
    getAssoc (setAssoc h k v) ck = if k = ck then some v else getAssoc h ck := by
  induction h with
  | nil => simp [setAssoc, getAssoc]
  | cons kv rest ih =>
    obtain ⟨k₀, w⟩ := kv
    by_cases h1 : k₀ = k
    · subst h1
      by_cases h2 : k₀ = ck <;> simp [setAssoc, getAssoc, h2]
    · by_cases h2 : k₀ = ck
      · subst h2
        have h3 : ¬k = k₀ := fun hh => h1 hh.symm
        simp [setAssoc, getAssoc, h1, h3]
      · simp [setAssoc, getAssoc, h1, h2, ih]

/-- After the header loop of `populateHTTPRequest`, a canonical key maps
to the value of the last addition with that canonical key; keys never
added are as in the initial map. -/
theorem getAssoc_applyHeaders (hs : List keyValuePair) (h₀ : Header) (ck : String) :
    getAssoc (applyHeaders hs h₀) ck =
      match lastHeaderFor hs ck with
      | some p => some [p.value.string]
      | none => getAssoc h₀ ck := by
  induction hs generalizing h₀ with
  | nil => simp [applyHeaders, lastHeaderFor]
  | cons p hs ih =>
    have hstep : applyHeaders (p :: hs) h₀ =
        applyHeaders hs (Header.set h₀ p.key p.value.string) := rfl
    rw [hstep, ih]
    have hfind : List.find? (fun q => canonicalMIMEHeaderKey q.key == ck) [p] =
        if canonicalMIMEHeaderKey p.key = ck then some p else none := by
      by_cases hk : canonicalMIMEHeaderKey p.key = ck
      · simp [List.find?, hk]
      · have hb : (canonicalMIMEHeaderKey p.key == ck) = false := by
          simp [hk]
        simp [List.find?, hb, hk]
    have hrev : lastHeaderFor (p :: hs) ck =
        (lastHeaderFor hs ck).or
          (if canonicalMIMEHeaderKey p.key = ck then some p else none) := by
      rw [lastHeaderFor, List.reverse_cons, List.find?_append, hfind]; rfl
    rw [hrev]
    cases hlast : lastHeaderFor hs ck with
    | some q => simp
    | none =>
      simp only [Option.or_none, Option.none_or]
      by_cases hk : canonicalMIMEHeaderKey p.key = ck
      · simp [Header.set, getAssoc_setAssoc, hk]
      · simp [Header.set, getAssoc_setAssoc, hk]

/-- C7: header materialization is last-write-wins.  For every draft
header list and key, the materialized header map holds, under the
(canonical) key, exactly the single value of the LAST addition with that
key — so when the same header key is added more than once only the last
value survives, unlike the query multimap; in particular adding key `k`
with value `a` and then again with value `b` leaves only `b`. -/
theorem C7_header_last_write_wins (hs : List keyValuePair) (k : String) :
    getAssoc (applyHeaders hs []) (canonicalMIMEHeaderKey k) =
      (lastHeaderFor hs (canonicalMIMEHeaderKey k)).map (fun p => [p.value.string]) ∧
    ∀ r : Request, ∀ a b : String,
      getAssoc (applyHeaders (AddHeader (AddHeader r k a) k b).headers [])
          (canonicalMIMEHeaderKey k) = some [b] := by
  constructor
  · rw [getAssoc_applyHeaders]
    cases lastHeaderFor hs (canonicalMIMEHeaderKey k) <;> simp [getAssoc]
  · intro r a b
    rw [getAssoc_applyHeaders]
    have : lastHeaderFor (AddHeader (AddHeader r k a) k b).headers
        (canonicalMIMEHeaderKey k) = some ⟨k, { is := .vdtString, s := b }⟩ := by
      simp [AddHeader, lastHeaderFor, List.find?_append, List.find?]
    rw [this]
    simp [valueData.string]

/-! Options snapshot (claim C8). -/

/-- C8: `NewRequest` copies the endpoint's `Options` by value.  The draft
gets a fresh cell distinct from the endpoint's shared cell; overwriting
the endpoint-wide defaults after creation changes the endpoint's cell but
leaves the draft's copy equal to the creation-time snapshot (both its
timeout and its retries). -/
theorem C8_options_snapshot (h : List Options) (optionsLoc : Nat) (v : Options)
    (hvalid : optionsLoc < h.length) :
    (NewRequestAlloc optionsLoc h).1 ≠ optionsLoc ∧
    heapRead (heapWrite (NewRequestAlloc optionsLoc h).2 optionsLoc v)
        (NewRequestAlloc optionsLoc h).1 = heapRead h optionsLoc ∧
    heapRead (heapWrite (NewRequestAlloc optionsLoc h).2 optionsLoc v) optionsLoc = v := by
  refine ⟨by simp [NewRequestAlloc]; omega, ?_, ?_⟩
  · have hne : optionsLoc ≠ h.length := by omega
    simp [NewRequestAlloc, heapRead, heapWrite, List.getElem?_set_ne hne,
      List.getElem?_concat_length]
  · have hlt : optionsLoc < h.length + 1 := by omega
    simp [NewRequestAlloc, heapRead, heapWrite, List.getElem?_set, hlt]

/-- C8 witness: a one-cell heap holding `(timeout 5, retries 2)`; after
the draft is created, the endpoint's cell is overwritten with
`(timeout 9, retries 9)`; the draft's cell still reads `(5, 2)`. -/
theorem C8_options_snapshot_witness :
    (NewRequestAlloc 0 [⟨5, 2⟩]).1 ≠ 0 ∧
    heapRead (heapWrite (NewRequestAlloc 0 [⟨5, 2⟩]).2 0 ⟨9, 9⟩)
        (NewRequestAlloc 0 [⟨5, 2⟩]).1 = heapRead [⟨5, 2⟩] 0 ∧
    heapRead (heapWrite (NewRequestAlloc 0 [⟨5, 2⟩]).2 0 ⟨9, 9⟩) 0 = ⟨9, 9⟩ :=
  C8_options_snapshot [⟨5, 2⟩] 0 ⟨9, 9⟩ (by decide)

/-! Body invariant (claim C10). -/

/-- A String is non-empty exactly when its length is positive (Go:
`len(s) > 0`). -/
theorem string_length_pos (s : String) : 0 < s.length ↔ s ≠ "" := by
  obtain ⟨d⟩ := s
  cases d <;> simp [String.length, String.ext_iff]

/-- One well-formed builder operation preserves the body invariant. -/
theorem bodyInvariant_applyOp (r : Request) (op : BuilderOp)
    (hok : opOK op) (h : bodyInvariant r) : bodyInvariant (applyOp r op) := by
  cases op with
  | addQuery k v => simpa [applyOp, AddQuery, bodyInvariant] using h
  | addQueryBool k v => simpa [applyOp, AddQueryBool, bodyInvariant] using h
  | addQueryInt k v => simpa [applyOp, AddQueryInt, bodyInvariant] using h
  | addHeader k v => simpa [applyOp, AddHeader, bodyInvariant] using h
  | formEncodedOp => simpa [applyOp, FormEncoded, AddHeader, bodyInvariant] using h
  | addBodyKV k v => simp [applyOp, AddBodyKV, bodyInvariant]
  | setBodyJSON m =>
    cases m with
    | none => simpa [applyOp, SetBodyJSON, bodyInvariant] using h
    | some s =>
      have hs : s ≠ "" := hok
      simp [applyOp, SetBodyJSON, bodyInvariant, hs]

/-- Any sequence of well-formed builder operations preserves the body
invariant. -/
theorem bodyInvariant_applyOps (r : Request) (ops : List BuilderOp)
    (hok : ∀ op ∈ ops, opOK op) (h : bodyInvariant r) :
    bodyInvariant (applyOps r ops) := by
  induction ops generalizing r with
  | nil => simpa [applyOps] using h
  | cons op ops ih =>
    have hstep : applyOps r (op :: ops) = applyOps (applyOp r op) ops := rfl
    rw [hstep]
    exact ih (applyOp r op) (fun o ho => hok o (List.mem_cons_of_mem _ ho))
      (bodyInvariant_applyOp r op (hok op (List.mem_cons_self op ops)) h)

/-- C10: for every draft obtained from `NewRequest` and mutated by any
sequence of public builder operations (with `json.Marshal` success
producing non-empty JSON text), `hasBody` is true exactly when `bodyTXT`
or `bodyKV` is non-empty; consequently `genHTTPReq` attaches a real body
reader — never the nil `*strings.Reader` — whenever `hasBody` is true. -/
theorem C10_body_invariant (e : Endpoint) (ops : List BuilderOp)
    (hok : ∀ op ∈ ops, opOK op) :
    bodyInvariant (applyOps (NewRequest e) ops) ∧
    ((applyOps (NewRequest e) ops).hasBody = true →
      ∃ s, genHTTPReqBody (applyOps (NewRequest e) ops) = some (some s)) := by
  have hinv := bodyInvariant_applyOps (NewRequest e) ops hok
    (by simp [bodyInvariant, NewRequest])
  refine ⟨hinv, ?_⟩
  intro hb
  rcases hinv.mp hb with htxt | hkv
  · have h1 : 0 < (applyOps (NewRequest e) ops).bodyTXT.length :=
      (string_length_pos _).mpr htxt
    exact ⟨(applyOps (NewRequest e) ops).bodyTXT, by simp [genHTTPReqBody, hb, h1]⟩
  · by_cases htxt : 0 < (applyOps (NewRequest e) ops).bodyTXT.length
    · exact ⟨(applyOps (NewRequest e) ops).bodyTXT, by simp [genHTTPReqBody, hb, htxt]⟩
    · have hkvlen : 0 < (applyOps (NewRequest e) ops).bodyKV.length :=
        List.length_pos.mpr hkv
      exact ⟨formEncode (applyOps (NewRequest e) ops).bodyKV,
        by simp [genHTTPReqBody, hb, htxt, hkvlen]⟩

/-! Query materialization (claim C3). -/

/-- Appending one element in the middle is a permutation of appending it
at the end. -/
theorem perm_append_singleton_middle {α : Type} (A B : List α) (x : α) :
    ((A ++ [x]) ++ B).Perm ((A ++ B) ++ [x]) := by
  rw [List.append_assoc, List.append_assoc]
  exact List.Perm.append_left A List.perm_append_comm

/-- `(url.Values).Add` adds exactly one pair to the multimap's content. -/
theorem flattenValues_add (vs : Values) (k v : String) :
    (flattenValues (Values.add vs k v)).Perm (flattenValues vs ++ [(k, v)]) := by
  induction vs with
  | nil => simp [Values.add, flattenValues]
  | cons kv rest ih =>
    obtain ⟨k₀, ws⟩ := kv
    by_cases hk : k₀ = k
    · subst hk
      have hadd : Values.add ((k₀, ws) :: rest) k₀ v = (k₀, ws ++ [v]) :: rest := by
        simp [Values.add]
      rw [hadd]
      simp only [flattenValues, List.flatMap_cons, List.map_append, List.map_cons,
        List.map_nil]
      exact perm_append_singleton_middle _ _ _
    · simp only [Values.add, if_neg hk, flattenValues, List.flatMap_cons]
      calc (ws.map (fun v => (k₀, v)) ++ (Values.add rest k v).flatMap
              (fun kv => kv.2.map (fun v => (kv.1, v)))).Perm
            (ws.map (fun v => (k₀, v)) ++ (flattenValues rest ++ [(k, v)])) :=
          List.Perm.append_left _ ih
        _ = (ws.map (fun v => (k₀, v)) ++ flattenValues rest) ++ [(k, v)] :=
          (List.append_assoc _ _ _).symm

/-- Folding `Add` over the query additions accumulates exactly the added
pairs (as a multiset). -/
theorem flattenValues_foldl_add (qs : List keyValuePair) :
    ∀ vs : Values,
      (flattenValues (qs.foldl (fun acc q => Values.add acc q.key q.value.string) vs)).Perm
        (flattenValues vs ++ rawPairs qs) := by
  induction qs with
  | nil => intro vs; simp [rawPairs]
  | cons q qs ih =>
    intro vs
    simp only [List.foldl_cons]
    have h1 := ih (Values.add vs q.key q.value.string)
    have h2 := (flattenValues_add vs q.key q.value.string).append_right (rawPairs qs)
    refine (h1.trans h2).trans ?_
    rw [List.append_assoc]
    simp [rawPairs]

/-- The materialized query pairs are a permutation of the added pairs:
every pair added appears exactly as often as it was added. -/
theorem materializedQueryPairs_perm (qs : List keyValuePair) :
    (materializedQueryPairs qs).Perm (rawPairs qs) := by
  have h1 : (materializedQueryPairs qs).Perm (flattenValues (applyQueries qs)) :=
    (List.perm_insertionSort keyLE (applyQueries qs)).flatMap_right _
  have h2 := flattenValues_foldl_add qs []
  simpa [flattenValues] using h1.trans h2

/-- A constant-true relation is pairwise. -/
theorem pairwise_const_of {α : Type} {p : Prop} (hp : p) (l : List α) :
    List.Pairwise (fun _ _ => p) l := by
  induction l with
  | nil => exact List.Pairwise.nil
  | cons a l ih => exact List.Pairwise.cons (fun _ _ => hp) ih

/-- The materialized query pairs are sorted by key (Go `Encode` sorts the
map's keys), so the emission order is key order, not insertion order. -/
theorem materializedQueryPairs_sorted (qs : List keyValuePair) :
    List.Pairwise (fun a b : String × String => a.1 ≤ b.1)
      (materializedQueryPairs qs) := by
  have hsorted : List.Sorted keyLE (List.insertionSort keyLE (applyQueries qs)) :=
    List.sorted_insertionSort keyLE (applyQueries qs)
  rw [materializedQueryPairs, Values.encodePairs, flattenValues]
  refine List.pairwise_flatMap.mpr ⟨?_, ?_⟩
  · intro a _
    exact List.pairwise_map.mpr (pairwise_const_of le_rfl _)
  · refine hsorted.imp ?_
    intro a b hab x hx y hy
    obtain ⟨vx, _, rfl⟩ := List.mem_map.mp hx
    obtain ⟨vy, _, rfl⟩ := List.mem_map.mp hy
    exact hab

/-- Map lookup after `Add`: the added key gains the value at the end of
its slice; other keys are untouched. -/
theorem valuesGet_add (vs : Values) (k v k₂ : String) :
    valuesGet (Values.add vs k v) k₂ =
      if k = k₂ then valuesGet vs k₂ ++ [v] else valuesGet vs k₂ := by
  induction vs with
  | nil => by_cases h : k = k₂ <;> simp [Values.add, valuesGet, h]
  | cons kv rest ih =>
    obtain ⟨k₀, ws⟩ := kv
    by_cases h0 : k₀ = k
    · subst h0
      by_cases h1 : k₀ = k₂ <;> simp [Values.add, valuesGet, h1]
    · by_cases h1 : k₀ = k₂
      · subst h1
        have h2 : ¬k = k₀ := fun hh => h0 hh.symm
        simp [Values.add, valuesGet, h0, h2]
      · simp [Values.add, valuesGet, h0, h1, ih]

/-- Folding `Add` accumulates, per key, exactly that key's added values
in insertion order. -/
theorem valuesGet_foldl_add (qs : List keyValuePair) :
    ∀ (vs : Values) (k : String),
      valuesGet (qs.foldl (fun acc q => Values.add acc q.key q.value.string) vs) k =
        valuesGet vs k ++ selectK k (rawPairs qs) := by
  induction qs with
  | nil => intro vs k; simp [rawPairs, selectK]
  | cons q qs ih =>
    intro vs k
    simp only [List.foldl_cons]
    rw [ih, valuesGet_add]
    by_cases h : q.key = k
    · simp [rawPairs, selectK, List.filterMap_cons, h]
    · simp [rawPairs, selectK, List.filterMap_cons, h]

/-- Keys present after an `Add`. -/
theorem mem_keysOf_add (vs : Values) (k v k₂ : String) :
    k₂ ∈ keysOf (Values.add vs k v) ↔ k₂ = k ∨ k₂ ∈ keysOf vs := by
  induction vs with
  | nil => simp [Values.add, keysOf]
  | cons kv rest ih =>
    obtain ⟨k₀, ws⟩ := kv
    by_cases h0 : k₀ = k
    · subst h0
      have hadd : Values.add ((k₀, ws) :: rest) k₀ v = (k₀, ws ++ [v]) :: rest := by
        simp [Values.add]
      rw [hadd]
      simp only [keysOf, List.map_cons, List.mem_cons]
      tauto
    · simp only [Values.add, if_neg h0, keysOf, List.map_cons, List.mem_cons] at ih ⊢
      rw [ih]
      tauto

/-- `Add` keeps the map's keys distinct. -/
theorem nodup_keysOf_add (vs : Values) (k v : String) (h : (keysOf vs).Nodup) :
    (keysOf (Values.add vs k v)).Nodup := by
  induction vs with
  | nil => simp [Values.add, keysOf]
  | cons kv rest ih =>
    obtain ⟨k₀, ws⟩ := kv
    by_cases h0 : k₀ = k
    · subst h0
      simpa [Values.add, keysOf] using h
    · simp only [keysOf, List.map_cons, List.nodup_cons] at h
      simp only [Values.add, if_neg h0, keysOf, List.map_cons, List.nodup_cons]
      refine ⟨?_, ih h.2⟩
      intro hmem
      rcases (mem_keysOf_add rest k v k₀).mp hmem with h1 | h1
      · exact h0 h1
      · exact h.1 h1

/-- The accumulated query map has distinct keys. -/
theorem nodup_keysOf_applyQueries (qs : List keyValuePair) :
    (keysOf (applyQueries qs)).Nodup := by
  suffices h : ∀ vs : Values, (keysOf vs).Nodup →
      (keysOf (qs.foldl (fun acc q => Values.add acc q.key q.value.string) vs)).Nodup from
    h [] (by simp [keysOf])
  induction qs with
  | nil => intro vs hv; simpa using hv
  | cons q qs ih =>
    intro vs hv
    simp only [List.foldl_cons]
    exact ih _ (nodup_keysOf_add vs q.key q.value.string hv)

/-- Unfolding the flattening over a cons cell. -/
theorem flattenValues_cons (k₀ : String) (ws : List String) (rest : Values) :
    flattenValues ((k₀, ws) :: rest) =
      ws.map (fun v => (k₀, v)) ++ flattenValues rest := rfl

/-- Per-key projection distributes over append. -/
theorem selectK_append (k : String) (l₁ l₂ : List (String × String)) :
    selectK k (l₁ ++ l₂) = selectK k l₁ ++ selectK k l₂ := by
  simp [selectK, List.filterMap_append]

/-- Per-key projection of one key's group: everything when the keys
agree, nothing otherwise. -/
theorem selectK_group (k k₀ : String) (ws : List String) :
    selectK k (ws.map (fun v => (k₀, v))) = if k₀ = k then ws else [] := by
  by_cases h : k₀ = k
  · subst h
    have hc : ((fun p : String × String => if p.1 = k₀ then some p.2 else none) ∘
        fun v => (k₀, v)) = some := by
      funext v; simp
    simp [selectK, List.filterMap_map, hc]
  · simp [selectK, List.filterMap_map, Function.comp, h]

/-- A key absent from the map contributes nothing to the flattening. -/
theorem selectK_flattenValues_of_not_mem (vs : Values) (k : String)
    (h : k ∉ keysOf vs) : selectK k (flattenValues vs) = [] := by
  induction vs with
  | nil => simp [flattenValues, selectK]
  | cons kv rest ih =>
    obtain ⟨k₀, ws⟩ := kv
    simp only [keysOf, List.map_cons, List.mem_cons, not_or] at h
    have hne : ¬k₀ = k := fun hh => h.1 hh.symm
    rw [flattenValues_cons, selectK_append, selectK_group, if_neg hne, ih h.2]
    rfl

/-- On a map with distinct keys, the per-key projection of the flattening
is exactly the map lookup. -/
theorem selectK_flattenValues (vs : Values) (k : String)
    (h : (keysOf vs).Nodup) : selectK k (flattenValues vs) = valuesGet vs k := by
  induction vs with
  | nil => simp [flattenValues, selectK, valuesGet]
  | cons kv rest ih =>
    obtain ⟨k₀, ws⟩ := kv
    simp only [keysOf, List.map_cons, List.nodup_cons] at h
    rw [flattenValues_cons, selectK_append, selectK_group]
    by_cases h0 : k₀ = k
    · subst h0
      rw [if_pos rfl, selectK_flattenValues_of_not_mem rest k₀ h.1]
      simp [valuesGet]
    · rw [if_neg h0, ih h.2]
      simp [valuesGet, h0]

/-- Map lookup is invariant under reordering the entries of a map with
distinct keys. -/
theorem valuesGet_perm (vs₁ vs₂ : Values) (hperm : vs₁.Perm vs₂)
    (hnd : (keysOf vs₁).Nodup) (k : String) :
    valuesGet vs₁ k = valuesGet vs₂ k := by
  induction hperm with
  | nil => rfl
  | cons x h ih =>
    simp only [keysOf, List.map_cons, List.nodup_cons] at hnd
    obtain ⟨k₀, ws⟩ := x
    simp only [valuesGet]
    by_cases h0 : k₀ = k
    · simp [h0]
    · simp only [if_neg h0]
      exact ih hnd.2
  | swap x y l =>
    obtain ⟨kx, wx⟩ := x
    obtain ⟨ky, wy⟩ := y
    simp only [keysOf, List.map_cons, List.nodup_cons, List.mem_cons, not_or] at hnd
    have hxy : ¬ky = kx := hnd.1.1
    simp only [valuesGet]
    by_cases hx : kx = k
    · subst hx
      have : ¬ky = kx := hxy
      simp [this]
    · by_cases hy : ky = k <;> simp [hx, hy]
  | trans h₁ h₂ ih₁ ih₂ =>
    have hnd₂ : (keysOf _).Nodup := ((h₁.map Prod.fst).nodup_iff).mp hnd
    exact (ih₁ hnd).trans (ih₂ hnd₂)

/-- Per-key projection of the materialized query pairs: key `k`'s values
appear exactly as added, in insertion order. -/
theorem materializedQueryPairs_filter (qs : List keyValuePair) (k : String) :
    selectK k (materializedQueryPairs qs) = selectK k (rawPairs qs) := by
  have hnd := nodup_keysOf_applyQueries qs
  have hpermsort := List.perm_insertionSort keyLE (applyQueries qs)
  have hndsort : (keysOf (List.insertionSort keyLE (applyQueries qs))).Nodup :=
    ((hpermsort.map Prod.fst).nodup_iff).mpr hnd
  have h1 : selectK k (flattenValues (List.insertionSort keyLE (applyQueries qs))) =
      valuesGet (List.insertionSort keyLE (applyQueries qs)) k :=
    selectK_flattenValues _ k hndsort
  have h2 := valuesGet_foldl_add qs [] k
  calc selectK k (materializedQueryPairs qs)
      = valuesGet (List.insertionSort keyLE (applyQueries qs)) k := h1
    _ = valuesGet (applyQueries qs) k := valuesGet_perm _ _ hpermsort hndsort k
    _ = selectK k (rawPairs qs) := by simpa [valuesGet] using h2

/-- C3 amended: materializing the query string emits one `key=value` pair
per addition — a key added n times appears exactly n times — but the
emission order is Go's `Encode` order: pairs grouped by key with the keys
SORTED lexicographically (byte order), not the insertion order of the
additions; within one key, values keep their insertion order. -/
theorem C3_amended_query_encoding (qs : List keyValuePair) :
    rawQuery qs = String.intercalate "&"
      ((materializedQueryPairs qs).map
        (fun kv => queryEscape kv.1 ++ "=" ++ queryEscape kv.2)) ∧
    (materializedQueryPairs qs).Perm (rawPairs qs) ∧
    List.Pairwise (fun a b : String × String => a.1 ≤ b.1)
      (materializedQueryPairs qs) ∧
    (∀ k, ((materializedQueryPairs qs).map Prod.fst).count k =
      (qs.map keyValuePair.key).count k) ∧
    (∀ k, selectK k (materializedQueryPairs qs) = selectK k (rawPairs qs)) := by
  refine ⟨rfl, materializedQueryPairs_perm qs, materializedQueryPairs_sorted qs,
    ?_, fun k => materializedQueryPairs_filter qs k⟩
  intro k
  have h := ((materializedQueryPairs_perm qs).map Prod.fst).count_eq k
  simpa [rawPairs, List.map_map, Function.comp] using h

/-- C3 counterexample: adding key "b" (value "x") and then key "a"
(value "1") materializes as `a=1&b=x` — keys sorted — while the claim's
insertion-order reading demands `b=x&a=1`; the two differ.  The §8
example (`limit=10`, then `active=true`) comes out sorted too. -/
theorem C3_counterexample :
    rawQuery reqBA.queries = "a=1&b=x" ∧
    rawQueryInsertionOrderSpec reqBA.queries = "b=x&a=1" ∧
    rawQuery reqBA.queries ≠ rawQueryInsertionOrderSpec reqBA.queries ∧
    RawQueryURL reqBA = "https://api.example.com/v1/items?a=1&b=x" ∧
    rawQuery (AddQueryBool (AddQueryInt (NewRequest epA) "limit" 10)
        "active" true).queries = "active=true&limit=10" := by
  refine ⟨?_, ?_, ?_, ?_, ?_⟩ <;> decide

/-- C10 witness: the one-operation sequence `AddBodyKV "a" "b"` yields a
draft satisfying the invariant, with a real body reader. -/
theorem C10_body_invariant_witness :
    bodyInvariant (applyOps (NewRequest epA) [.addBodyKV "a" "b"]) ∧
    ((applyOps (NewRequest epA) [.addBodyKV "a" "b"]).hasBody = true →
      ∃ s, genHTTPReqBody (applyOps (NewRequest epA) [.addBodyKV "a" "b"]) =
        some (some s)) :=
  C10_body_invariant epA [.addBodyKV "a" "b"]
    (by intro op hop; simp at hop; subst hop; exact trivial)

end GoAPI
